import Mathlib

/-!
Verification of the macro transformers in the `rust_examples` crate.

The content of the repository is compile-time source-to-source transformation:
declarative pattern macros (`find_min!`, `vector!`, `repeat_two!`), a
function-like procedural macro (`reverse_exprs!`), a derive macro
(`MyDebug`), and an attribute macro (`log_call`). Each transformer is
embedded here as a pure Lean function from its input syntax (argument
expression lists, declaration descriptors, function items) to its output
syntax, together with an evaluation semantics for the generated code,
translated from `src/rust_examples/src/main.rs` and
`src/rust_examples/src/lib.rs`.
-/

/-- Argument expressions appearing at the demonstrated call sites:
integer literals, `+`, `*`, and `std::cmp::min` applications (the latter
are produced by the expansion of `find_min!`). -/
inductive Expr
  | lit : Int → Expr
  | add : Expr → Expr → Expr
  | mul : Expr → Expr → Expr
  | minE : Expr → Expr → Expr
deriving DecidableEq

/-- Evaluation of an argument expression; `minE` is `std::cmp::min`. -/
def Expr.eval : Expr → Int
  | .lit n => n
  | .add a b => a.eval + b.eval
  | .mul a b => a.eval * b.eval
  | .minE a b => min a.eval b.eval

/-- Runtime values of the generated expressions: integers and tuples.
The empty tuple is the unit value `()`. -/
inductive Value
  | int : Int → Value
  | tuple : List Value → Value

/-- From `lib.rs`, `reverse_exprs`: the input token stream is parsed as a
comma-separated punctuated list of expressions, collected into a vector,
reversed in place; the output is the component list of the emitted tuple
expression `(#(#expr_vec),*)`. -/
def reverse_exprs (input : List Expr) : List Expr :=
  let expr_vec := input
  let expr_vec := expr_vec.reverse
  expr_vec

/-- Rust evaluation of the emitted parenthesized component list: one
component `(e)` is plain parenthesization and evaluates to the value of
`e`; any other arity is a tuple value (`()` being unit). -/
def tupleExprValue (es : List Expr) : Value :=
  match es with
  | [e] => Value.int e.eval
  | es => Value.tuple (es.map (fun e => Value.int e.eval))

/-- From `main.rs`, `find_min!`: the first rule `($x:expr)` expands to
`$x`; the second rule `($x:expr, $($y:expr),+)` expands to
`std::cmp::min($x, find_min!($($y), +))`, recursively. No rule matches an
empty argument list, so the expansion is `none` there. -/
def find_min_expand : List Expr → Option Expr
  | [] => none
  | [x] => some x
  | x :: y :: ys => (find_min_expand (y :: ys)).map (fun r => Expr.minE x r)

/-- The two rules declared by `find_min!`, in declaration order:
`base` is `($x:expr)` and `multi` is `($x:expr, $($y:expr),+)`. -/
inductive FindMinRule
  | base
  | multi
deriving DecidableEq

/-- The rule list of `find_min!` in declaration order. -/
def find_min_rules : List FindMinRule := [FindMinRule.base, FindMinRule.multi]

/-- Whether a rule of `find_min!` matches an invocation with the given
number of comma-separated expression arguments: `($x:expr)` matches
exactly one, `($x:expr, $($y:expr),+)` matches two or more. -/
def ruleMatches : FindMinRule → Nat → Bool
  | .base, 1 => true
  | .base, _ => false
  | .multi, n => decide (2 ≤ n)

/-- The field shapes of a struct declaration, as in `syn::Fields`: named
fields carry their identifiers in declaration order, unnamed (tuple
struct) fields carry their type tokens in declaration order, and a unit
struct has no fields. -/
inductive Fields
  | named : List String → Fields
  | unnamed : List String → Fields
  | unit : Fields
deriving DecidableEq

/-- The declaration body, as in `syn::Data`: a struct with fields, an
enum with its variant names, or a union with its field names. -/
inductive Data
  | structData : Fields → Data
  | enumData : List String → Data
  | unionData : List String → Data
deriving DecidableEq

/-- A derive input, as in `syn::DeriveInput`: the identifier of the declared
type and its body. -/
structure DeriveInput where
  ident : String
  data : Data
deriving DecidableEq

/-- One statement of the generated `my_fmt` body.  `openMarker n` is
`print!` of the type name followed by an opening brace; `fieldNamed f`
is `print!` of the field name and `self.f`; `fieldIndexed i` is `print!`
of the literal index `i` and `self.i`; `unitStmt` is the constant
`print!` of the text `(unit struct)`; `closeMarker` is `println!` of the
closing brace. -/
inductive Stmt
  | openMarker : String → Stmt
  | fieldNamed : String → Stmt
  | fieldIndexed : Nat → Stmt
  | unitStmt : Stmt
  | closeMarker : Stmt
deriving DecidableEq

/-- The single generated `impl MyDebug for #name` block: the
name of the implementing type and the statements of the `my_fmt` method body,
in emission order. -/
structure ImplBlock where
  typeName : String
  body : List Stmt
deriving DecidableEq

/-- From `lib.rs`, `my_debug_derive`: match on the declaration body; for
a struct, build the per-field statement list by the field shape (named
fields are mapped to statements by identifier, unnamed fields are
enumerated and mapped to statements by index, a unit struct yields the
one constant statement), then emit one impl block whose method body is
the opening marker, the field statements, and the closing marker. Any
other declaration shape aborts with the diagnostic of the `panic` call,
emitting no code. -/
def my_debug_derive (ast : DeriveInput) : Except String ImplBlock :=
  let name := ast.ident
  match ast.data with
  | Data.structData dataFields =>
    let fields : List Stmt :=
      match dataFields with
      | Fields.named ns => ns.map (fun f => Stmt.fieldNamed f)
      | Fields.unnamed tys => tys.enum.map (fun p => Stmt.fieldIndexed p.1)
      | Fields.unit => [Stmt.unitStmt]
    Except.ok
      { typeName := name
        body := Stmt.openMarker name :: fields ++ [Stmt.closeMarker] }
  | _ => Except.error "MyDebug can only be derived for structs"

/-- A function item, as decomposed by `log_call` from `syn::ItemFn`:
attributes, visibility, the name from the signature (the parameter and
return types are the type parameters), and the body block. Running the body
yields the lines it prints together with its result value. -/
structure ItemFn (α β : Type) where
  attrs : List String
  vis : String
  name : String
  body : α → List String × β

/-- From `lib.rs`, `log_call`: re-emit the function with the same
attributes, visibility and signature; the new body prints the entry
line, binds the result of the original block, prints the exit line, and
yields the result. -/
def log_call {α β : Type} (f : ItemFn α β) : ItemFn α β :=
  { attrs := f.attrs
    vis := f.vis
    name := f.name
    body := fun x =>
      let entry := "Calling function `" ++ f.name ++ "`"
      let (out, result) := f.body x
      let exitLine := "Function `" ++ f.name ++ "` returned"
      (entry :: out ++ [exitLine], result) }

/-- From `main.rs`, `calculate_sum`: the public function wrapped by
`log_call`; its original body prints nothing and returns `a + b`. -/
def calculate_sum : ItemFn (Int × Int) Int :=
  { attrs := []
    vis := "pub"
    name := "calculate_sum"
    body := fun p => ([], p.1 + p.2) }

/-- From `main.rs`, `vector!` second rule `($($elem:expr),* $(,)?)`: the
expansion pushes each matched element in order onto a fresh vector. -/
def vector_list (elems : List Int) : List Int :=
  elems.foldl (fun temp_vec e => temp_vec ++ [e]) []

/-- From `main.rs`, `vector!` first rule `($elem:expr; $count:expr)`:
the expansion pushes the element onto a fresh vector once per loop
iteration of `for _ in 0..count`. -/
def vector_repeat (elem : Int) (count : Nat) : List Int :=
  (List.range count).foldl (fun temp_vec _ => temp_vec ++ [elem]) []

/-- An argument token of the `vector!` invocation at the token level:
an expression fragment or a comma. -/
inductive Tok
  | exprTok : Int → Tok
  | comma : Tok
deriving DecidableEq

/-- Matching of the pattern `($($elem:expr),* $(,)?)` of `vector!`
second rule against the token list of the invocation: a comma-separated
repetition of expressions, zero or more times, followed by one optional
trailing comma; `none` when the pattern does not match. -/
def matchElems : List Tok → Option (List Int)
  | [] => some []
  | [Tok.comma] => some []
  | [Tok.exprTok e] => some [e]
  | [Tok.exprTok e, Tok.comma] => some [e]
  | Tok.exprTok e :: Tok.comma :: Tok.exprTok f :: rest =>
    (matchElems (Tok.exprTok f :: rest)).map (fun l => e :: l)
  | _ => none

/-- The token encoding of a comma-separated argument list with no
trailing comma. -/
def encodeArgs : List Int → List Tok
  | [] => []
  | [e] => [Tok.exprTok e]
  | e :: rest => Tok.exprTok e :: Tok.comma :: encodeArgs rest

/-- The element-list form of `vector!` from the invocation tokens:
match the pattern of the second rule, then expand to the push loop. -/
def vector_list_match (ts : List Tok) : Option (List Int) :=
  (matchElems ts).map vector_list

/-- From `main.rs`, `repeat_two!`: the pattern `($($i:ident)*, $($i2:ident)*)`
binds `i` and `i2` to the two identifier sequences; the template
`$( let $i: (); let $i2: (); )*` repeats them together, which the
transcriber accepts only when both bind the same count, aborting
otherwise with the compiler diagnostic recorded at the commented-out
call site. On success the expansion is the paired statement list. -/
def repeat_two (iBound i2Bound : List String) : Except String (List (String × String)) :=
  if iBound.length = i2Bound.length then
    Except.ok (iBound.zip i2Bound)
  else
    Except.error ("meta-variable `i` repeats " ++ toString iBound.length ++
      " times, but `i2` repeats " ++ toString i2Bound.length ++ " times")

/-- One invocation input of any of the embedded transformers. -/
inductive TransformerInput
  | rev : List Expr → TransformerInput
  | derive : DeriveInput → TransformerInput
  | findMin : List Expr → TransformerInput
  | vecList : List Tok → TransformerInput
  | vecRepeat : Int → Nat → TransformerInput
  | repTwo : List String → List String → TransformerInput
  | logc : ItemFn (Int × Int) Int → TransformerInput

/-- One invocation output of any of the embedded transformers. -/
inductive TransformerOutput
  | exprList : List Expr → TransformerOutput
  | implResult : Except String ImplBlock → TransformerOutput
  | exprResult : Option Expr → TransformerOutput
  | intsResult : Option (List Int) → TransformerOutput
  | ints : List Int → TransformerOutput
  | stmtsResult : Except String (List (String × String)) → TransformerOutput
  | fnItem : ItemFn (Int × Int) Int → TransformerOutput

/-- Dispatch one invocation to the transformer it names. Each arm calls
the corresponding embedded transformer on the tokens of that invocation
and nothing else. -/
def runTransformer : TransformerInput → TransformerOutput
  | .rev es => .exprList (reverse_exprs es)
  | .derive d => .implResult (my_debug_derive d)
  | .findMin es => .exprResult (find_min_expand es)
  | .vecList ts => .intsResult (vector_list_match ts)
  | .vecRepeat e c => .ints (vector_repeat e c)
  | .repTwo a b => .stmtsResult (repeat_two a b)
  | .logc f => .fnItem (log_call f)

/-- A sequence of transformer invocations, run in order; each output is
produced from its own input alone, as no transformer carries state. -/
def runTrace (t : List TransformerInput) : List TransformerOutput :=
  t.map runTransformer

/-- Helper: folding push over a list appends it to the accumulator. -/
theorem foldl_push (acc es : List Int) :
    es.foldl (fun v e => v ++ [e]) acc = acc ++ es := by
  induction es generalizing acc with
  | nil => simp
  | cons e es ih => simp [ih]

/-- Helper: the push-loop expansion of the element-list rule of `vector!`
returns its element list unchanged. -/
theorem vector_list_eq (es : List Int) : vector_list es = es := by
  simpa using foldl_push [] es

/-- Helper: the token encoding of a nonempty argument list starts with
the token of its first expression. -/
theorem encodeArgs_cons (f : Int) (es : List Int) :
    ∃ t, encodeArgs (f :: es) = Tok.exprTok f :: t := by
  cases es <;> exact ⟨_, rfl⟩

/-- Helper: the pattern of the element-list rule of `vector!` matches a
nonempty comma-separated argument list, with or without one trailing
comma, and binds the same elements either way. -/
theorem matchElems_encode (e : Int) (es : List Int) :
    matchElems (encodeArgs (e :: es)) = some (e :: es) ∧
    matchElems (encodeArgs (e :: es) ++ [Tok.comma]) = some (e :: es) := by
  induction es generalizing e with
  | nil => exact ⟨rfl, rfl⟩
  | cons f es ih =>
    obtain ⟨ih1, ih2⟩ := ih f
    obtain ⟨t, ht⟩ := encodeArgs_cons f es
    have henc : encodeArgs (e :: f :: es) =
        Tok.exprTok e :: Tok.comma :: Tok.exprTok f :: t := by
      show Tok.exprTok e :: Tok.comma :: encodeArgs (f :: es) = _
      rw [ht]
    constructor
    · rw [henc]
      show (matchElems (Tok.exprTok f :: t)).map (fun l => e :: l) = _
      rw [← ht, ih1]
      rfl
    · rw [henc]
      show matchElems (Tok.exprTok e :: Tok.comma :: Tok.exprTok f ::
        (t ++ [Tok.comma])) = _
      show (matchElems (Tok.exprTok f :: (t ++ [Tok.comma]))).map
        (fun l => e :: l) = _
      have hshift : Tok.exprTok f :: (t ++ [Tok.comma]) =
          encodeArgs (f :: es) ++ [Tok.comma] := by rw [ht]; rfl
      rw [hshift, ih2]
      rfl

/-- Claim C1: for every argument count n >= 1, the expansion of
`find_min!` exists and evaluates to the mathematical minimum of the
supplied values (a value that is among them and no larger than any of
them); in particular `find_min!(5, 2*3, 4)` evaluates to 4. -/
theorem find_min_spec :
    (∀ (x : Expr) (ys : List Expr), ∃ e,
      find_min_expand (x :: ys) = some e ∧
      e.eval ∈ (x :: ys).map Expr.eval ∧
      ∀ v ∈ (x :: ys).map Expr.eval, e.eval ≤ v) ∧
    (find_min_expand [Expr.lit 5, Expr.mul (Expr.lit 2) (Expr.lit 3),
      Expr.lit 4]).map Expr.eval = some 4 := by
  constructor
  · intro x ys
    induction ys generalizing x with
    | nil => exact ⟨x, rfl, by simp, by simp⟩
    | cons y ys ih =>
      obtain ⟨e, he, hmem, hlb⟩ := ih y
      refine ⟨Expr.minE x e, ?_, ?_, ?_⟩
      · simp [find_min_expand, he]
      · rcases le_total x.eval e.eval with h | h
        · simp [Expr.eval, min_eq_left h]
        · have hval : (Expr.minE x e).eval = e.eval := by
            simp [Expr.eval, min_eq_right h]
          rw [hval]
          simp only [List.map_cons, List.mem_cons]
          right
          simpa using hmem
      · intro v hv
        simp only [List.map_cons, List.mem_cons] at hv
        rcases hv with rfl | hv
        · simp [Expr.eval]
        · have hle := hlb v (by simpa using hv)
          calc (Expr.minE x e).eval ≤ e.eval := by simp [Expr.eval]
            _ ≤ v := hle
  · decide

/-- Claim C2: `reverse_exprs!` emits the input expressions in reversed
order as the components of a tuple expression; on `(1, 3, 5)` the
emitted tuple evaluates to `(5, 3, 1)`, on a single element it evaluates
to the value of that element unchanged, and on zero elements it
evaluates to the unit (empty tuple) value. -/
theorem reverse_exprs_spec :
    (∀ es : List Expr, reverse_exprs es = es.reverse) ∧
    tupleExprValue (reverse_exprs [Expr.lit 1, Expr.lit 3, Expr.lit 5]) =
      Value.tuple [Value.int 5, Value.int 3, Value.int 1] ∧
    (∀ e : Expr, tupleExprValue (reverse_exprs [e]) = Value.int e.eval) ∧
    tupleExprValue (reverse_exprs []) = Value.tuple [] :=
  ⟨fun _ => rfl, rfl, fun _ => rfl, rfl⟩

/-- Claim C3: for every struct declaration the `MyDebug` derive emits
exactly one impl block whose `my_fmt` body begins with the opening
marker naming the type and ends with the closing marker; named fields
yield one statement per field by name in declaration order, positional
fields yield one statement per field for the indices 0..n-1, and a
fieldless struct yields the single constant statement. -/
theorem my_debug_struct_spec :
    ∀ (name : String) (fs : Fields), ∃ impl : ImplBlock,
      my_debug_derive ⟨name, Data.structData fs⟩ = Except.ok impl ∧
      impl.typeName = name ∧
      impl.body.head? = some (Stmt.openMarker name) ∧
      impl.body.getLast? = some Stmt.closeMarker ∧
      (∀ ns, fs = Fields.named ns →
        impl.body = Stmt.openMarker name :: ns.map Stmt.fieldNamed ++
          [Stmt.closeMarker]) ∧
      (∀ tys, fs = Fields.unnamed tys →
        impl.body = Stmt.openMarker name ::
          (List.range tys.length).map Stmt.fieldIndexed ++ [Stmt.closeMarker]) ∧
      (fs = Fields.unit →
        impl.body = [Stmt.openMarker name, Stmt.unitStmt, Stmt.closeMarker]) := by
  intro name fs
  refine ⟨_, rfl, rfl, rfl, ?_, ?_, ?_, ?_⟩
  · show ((Stmt.openMarker name :: _) ++ [Stmt.closeMarker]).getLast? = _
    exact List.getLast?_concat _
  · intro ns h
    subst h
    simp [my_debug_derive]
  · intro tys h
    subst h
    show Stmt.openMarker name :: List.map (fun p => Stmt.fieldIndexed p.1) tys.enum ++
        [Stmt.closeMarker] = _
    rw [← List.enum_map_fst tys, List.map_map]
    rfl
  · intro h
    subst h
    rfl

/-- Claim C4: for every non-struct declaration (enum or union), the
`MyDebug` derive aborts with the explicit diagnostic and produces no
impl block at all. -/
theorem my_debug_non_struct_spec :
    ∀ (name : String) (variants unionFields : List String),
      my_debug_derive ⟨name, Data.enumData variants⟩ =
        Except.error "MyDebug can only be derived for structs" ∧
      my_debug_derive ⟨name, Data.unionData unionFields⟩ =
        Except.error "MyDebug can only be derived for structs" :=
  fun _ _ _ => ⟨rfl, rfl⟩

/-- Claim C5: `log_call` preserves the name, visibility and attributes
of the wrapped function; on every input the wrapped body returns exactly
the value the unwrapped body returns, and its printed lines are the
entry diagnostic naming the function, then the lines of the original
body, then the exit diagnostic naming the function; in particular the
wrapped `calculate_sum` still returns 12 on (3, 9). -/
theorem log_call_spec :
    (∀ (α β : Type) (f : ItemFn α β) (x : α),
      (log_call f).name = f.name ∧ (log_call f).vis = f.vis ∧
      (log_call f).attrs = f.attrs ∧
      ((log_call f).body x).2 = (f.body x).2 ∧
      ((log_call f).body x).1 =
        ("Calling function `" ++ f.name ++ "`") :: (f.body x).1 ++
          ["Function `" ++ f.name ++ "` returned"]) ∧
    ((log_call calculate_sum).body (3, 9)).2 = 12 ∧
    (calculate_sum.body (3, 9)).2 = 12 :=
  ⟨fun _ _ _ _ => ⟨rfl, rfl, rfl, rfl, rfl⟩, rfl, rfl⟩

/-- Claim C6: with the two co-repeated capture variables of
`repeat_two!` bound to six and three identifiers respectively, the
expansion aborts at compile time with the repetition-count diagnostic
instead of producing any statement list. -/
theorem repeat_two_mismatch :
    repeat_two ["a", "b", "c", "d", "e", "f"] ["x", "y", "z"] =
      Except.error "meta-variable `i` repeats 6 times, but `i2` repeats 3 times" :=
  rfl

/-- Claim C7: the element-list form of `vector!` applied to
(1,3,5,5,6,3) yields [1,3,5,5,6,3], preserving duplicates and order (as
it does on every element list); the (value; count) form applied to
(1; 3) yields [1,1,1]. -/
theorem vector_spec :
    vector_list [1, 3, 5, 5, 6, 3] = [1, 3, 5, 5, 6, 3] ∧
    vector_repeat 1 3 = [1, 1, 1] ∧
    (∀ es : List Int, vector_list es = es) :=
  ⟨by decide, by decide, vector_list_eq⟩

/-- Claim C8, counterexample: no declared rule of `find_min!` matches a
zero-argument invocation, and the expansion of the empty argument list
is undefined; the claimed empty-list base rule does not exist. -/
theorem find_min_no_empty_rule :
    (find_min_rules.any (fun r => ruleMatches r 0)) = false ∧
    find_min_expand [] = none :=
  ⟨by decide, rfl⟩

/-- Claim C8, amended: the base case of the recursion of `find_min!` is
the single-argument rule, which matches exactly one expression and
expands to it unchanged; no declared rule matches the empty argument
list, so a zero-argument invocation fails to match. -/
theorem find_min_base_case :
    (∀ r ∈ find_min_rules, ruleMatches r 0 = false) ∧
    ruleMatches FindMinRule.base 1 = true ∧
    (∀ e : Expr, find_min_expand [e] = some e) ∧
    find_min_expand [] = none :=
  ⟨by decide, rfl, fun _ => rfl, rfl⟩

/-- Claim C9: the transformers are deterministic; in any two invocation
sequences, equal input at a position yields equal output at that
position, independent of every other (in particular every prior)
invocation. -/
theorem transformers_deterministic :
    ∀ (t1 t2 : List TransformerInput) (i : Nat),
      t1.get? i = t2.get? i →
      (runTrace t1).get? i = (runTrace t2).get? i := by
  intro t1 t2 i h
  rw [List.get?_eq_getElem?, List.get?_eq_getElem?] at h
  simp [runTrace, List.get?_eq_getElem?, List.getElem?_map, h]

/-- Claim C9 witness: two concrete traces differing in their first
invocation but agreeing at position 1 produce the same output at
position 1. -/
theorem transformers_deterministic_witness :
    ([TransformerInput.rev [Expr.lit 1],
        TransformerInput.vecRepeat 1 3].get? 1 =
      [TransformerInput.findMin [Expr.lit 2],
        TransformerInput.vecRepeat 1 3].get? 1) ∧
    (runTrace [TransformerInput.rev [Expr.lit 1],
        TransformerInput.vecRepeat 1 3]).get? 1 =
      (runTrace [TransformerInput.findMin [Expr.lit 2],
        TransformerInput.vecRepeat 1 3]).get? 1 :=
  ⟨rfl, transformers_deterministic _ _ 1 rfl⟩

/-- Claim C10: for every nonempty comma-separated expression list, the
element-list form of `vector!` also matches the same list with one
trailing comma, and the two invocations expand to the same sequence,
namely the elements in order. -/
theorem vector_trailing_comma :
    ∀ (e : Int) (es : List Int),
      vector_list_match (encodeArgs (e :: es) ++ [Tok.comma]) =
        vector_list_match (encodeArgs (e :: es)) ∧
      vector_list_match (encodeArgs (e :: es)) = some (e :: es) := by
  intro e es
  obtain ⟨h1, h2⟩ := matchElems_encode e es
  refine ⟨?_, ?_⟩
  · simp [vector_list_match, h1, h2]
  · simp [vector_list_match, h1, vector_list_eq]
